import Mathlib

/-!
# tlds: a verification development

A shallow embedding of `main.go` of the `tlds` program (candidate generation, the HTTP probe
with its redirect policy, the worker pool with its semaphore, and the reporting code), followed
by theorems about it.

Conventions of the embedding.

* Go strings are Lean strings (the development covers valid UTF-8 text); `+` is `++`.
* A Go `error` is a value of `GoError`; a `nil` error is `none`, and a `(value, error)` pair that
  is used as a sum is an `Except`.
* Everything the program obtains from the outside (the file system, the URL parser, the network,
  the resolver, the HTML parser) is a field of `Env`.
* The network answers as a function of the URL requested; the request loop of `http.Client`
  is modelled after the documentation of `net/http` (`clientDo`).
* Writes to the console and to the output files are appends to a text; they are modelled as
  succeeding, and the colour escape codes of the console are left out.
* The goroutines are modelled by their interleavings: a step of the pool is one channel
  operation, or the return of `checkDomainStatus`, of one worker (`Pool.step`).
-/

namespace Tlds

/-! ## Errors and the environment -/

/-- The Go error values that the program creates or receives. -/
inductive GoError where
  /-- The sentinel `http.ErrUseLastResponse`. -/
  | ErrUseLastResponse
  /-- An error made by `fmt.Errorf`, with its message. -/
  | Errorf (msg : String)
  /-- The sentinel `bufio.ErrTooLong`. -/
  | ErrTooLong
  /-- An error reported by the operating system, the URL parser, the resolver or the network. -/
  | external (msg : String)
  deriving DecidableEq, Repr

/-- The fields of `url.URL` that the program reads. -/
structure URL where
  Scheme : String
  Host : String
  Path : String
  deriving DecidableEq, Repr

/-- An `http.Request`, of which the program reads the URL only. -/
structure Request where
  URL : URL
  deriving DecidableEq, Repr

/-- An `http.Response`: its status code and the value of `Header.Get("Location")`. -/
structure Response where
  StatusCode : Int
  Location : String
  deriving DecidableEq, Repr

/-- The outside world of one run. -/
structure Env where
  /-- The call `os.Open` followed by reading the whole file: the content, or the error. -/
  Open : String → Except GoError String
  /-- The call `os.Create`. -/
  Create : String → Except GoError Unit
  /-- The call `url.Parse` on the text of a request URL. -/
  Parse : String → Except GoError URL
  /-- The composite `url.Parse(u.String())`. -/
  Reparse : URL → Except GoError URL
  /-- The call `u.Parse(ref)` by which the HTTP client resolves a `Location` header. -/
  Resolve : URL → String → Except GoError URL
  /-- One request and response exchange of the transport, without any redirect handling. -/
  RoundTrip : URL → Except GoError Response
  /-- The call `net.LookupIP`: the textual form of the addresses found, which are never none
  when there is no error. -/
  LookupIP : String → Except GoError (String × List String)
  /-- The call `http.Get` of the default client: the body of the final response. -/
  Get : String → Except GoError String
  /-- The HTML parser followed by `Find("title").Text()`. -/
  TitleText : String → Except GoError String

/-! ## Strings: `strings.TrimSpace` and the line scanner -/

/-- The predicate `unicode.IsSpace`. -/
def isSpace (c : Char) : Bool :=
  let n := c.toNat
  (0x09 ≤ n && n ≤ 0x0D) || n == 0x20 || n == 0x85 || n == 0xA0 || n == 0x1680 ||
  (0x2000 ≤ n && n ≤ 0x200A) || n == 0x2028 || n == 0x2029 || n == 0x202F || n == 0x205F ||
  n == 0x3000

/-- The function `strings.TrimSpace`: the text without its leading and trailing white space. -/
def TrimSpace (s : String) : String :=
  ⟨(s.data.dropWhile isSpace).rdropWhile isSpace⟩

/-- The helper `dropCR` of `bufio.ScanLines`: one trailing carriage return is removed. -/
def dropCR (data : List Char) : List Char :=
  if data.getLast? = some '\r' then data.dropLast else data

/-- The constant `bufio.MaxScanTokenSize`. -/
def MaxScanTokenSize : Nat := 64 * 1024

/-- The length in bytes of a piece of text. -/
def byteLen (data : List Char) : Nat :=
  (data.map Char.utf8Size).sum

/-- The scanner gives up with `ErrTooLong` when its buffer of `MaxScanTokenSize` bytes is full
and holds no complete line. -/
def tooLong (data : List Char) : Bool :=
  decide (MaxScanTokenSize ≤ byteLen data)

/-- The loop `for scanner.Scan() { lines = append(lines, strings.TrimSpace(scanner.Text())) }`
of `readLines` together with `return lines, scanner.Err()`, run over the rest of the input:
`lines` is the slice built so far and `acc` the bytes of the current line read so far. The
scanner splits with `bufio.ScanLines`: a line ends at a line feed, a last line without a line
feed is returned when it has at least one byte. -/
def scanLoop (lines : List String) (acc : List Char) : List Char → List String × Option GoError
  | [] =>
    if acc = [] then (lines, none)
    else if tooLong acc then (lines, some GoError.ErrTooLong)
    else (lines ++ [TrimSpace ⟨dropCR acc⟩], none)
  | c :: rest =>
    if c = '\n' then
      if tooLong acc then (lines, some GoError.ErrTooLong)
      else scanLoop (lines ++ [TrimSpace ⟨dropCR acc⟩]) [] rest
    else scanLoop lines (acc ++ [c]) rest

/-- The function `readLines`. -/
def readLines (env : Env) (filename : String) : List String × Option GoError :=
  match env.Open filename with
  | .error err => ([], some err)
  | .ok content => scanLoop [] [] content.data

/-! ## The candidate generator -/

/-- The loop `for _, tld := range tldList { domainChannel <- baseDomain + "." + tld }` of
`main`; `sent` is the sequence of values sent on the channel so far. -/
def sendDomains (baseDomain : String) (sent : List String) : List String → List String
  | [] => sent
  | tld :: rest => sendDomains baseDomain (sent ++ [baseDomain ++ "." ++ tld]) rest

/-- The body of `main` up to the sending loop: the values sent on `domainChannel`, none when
`main` returns before the loop (a required flag is missing, the TLD file cannot be read, an
output file cannot be created). -/
def mainCandidates (env : Env) (baseDomain tldFile outputFile outputIPFile : String) :
    List String :=
  if baseDomain = "" ∨ tldFile = "" then []
  else
    match readLines env tldFile with
    | (_, some _) => []
    | (tldList, none) =>
      if outputFile ≠ "" ∧ (env.Create outputFile).toBool = false then []
      else if outputIPFile ≠ "" ∧ (env.Create outputIPFile).toBool = false then []
      else sendDomains baseDomain [] tldList

/-! ## The prober -/

/-- The loop `for _, prevReq := range via` of the redirect policy. -/
def hostLoop (env : Env) (u : URL) : List Request → Option GoError
  | [] => none
  | prevReq :: rest =>
    match env.Reparse prevReq.URL with
    | .error err => some err
    | .ok prevURL =>
      if u.Host != prevURL.Host then some GoError.ErrUseLastResponse
      else hostLoop env u rest

/-- The redirect policy `CheckRedirect` that `checkDomainStatus` installs in its client; `none`
is the `nil` error, by which the client follows the redirect. -/
def CheckRedirect (env : Env) (followRedirects : Bool) (maxRedirects : Int)
    (followHostRedirects : Bool) (req : Request) (via : List Request) : Option GoError :=
  if !followRedirects then some GoError.ErrUseLastResponse
  else if (via.length : Int) ≥ maxRedirects then
    some (GoError.Errorf ("stopped after " ++ toString maxRedirects ++ " redirects"))
  else if !followHostRedirects then
    match env.Reparse req.URL with
    | .error err => some err
    | .ok u => hostLoop env u via
  else none

/-- The statuses on which the client of `net/http` looks for a redirect of a `GET`. -/
def shouldRedirect (resp : Response) : Bool :=
  resp.StatusCode = 301 || resp.StatusCode = 302 || resp.StatusCode = 303 ||
  resp.StatusCode = 307 || resp.StatusCode = 308

/-- The request loop of `http.Client` as `net/http` documents it: the request is sent; a
response that is no redirect, or has no `Location`, is returned; otherwise the policy is asked
with the next request and the requests made so far, oldest first. On `ErrUseLastResponse` the
most recent response is returned with a `nil` error, on any other error the error is returned,
on `nil` the next request is sent. `fuel` bounds the number of requests; `none` is returned
when it runs out (`clientGet` gives enough). -/
def clientDo (env : Env) (followRedirects : Bool) (maxRedirects : Int)
    (followHostRedirects : Bool) :
    Nat → Request → List Request → Option (Except GoError Response)
  | 0, _, _ => none
  | fuel + 1, req, via =>
    match env.RoundTrip req.URL with
    | .error err => some (.error err)
    | .ok resp =>
      if !shouldRedirect resp then some (.ok resp)
      else if resp.Location = "" then some (.ok resp)
      else
        match env.Resolve req.URL resp.Location with
        | .error err => some (.error err)
        | .ok u =>
          match CheckRedirect env followRedirects maxRedirects followHostRedirects ⟨u⟩
              (via ++ [req]) with
          | some GoError.ErrUseLastResponse => some (.ok resp)
          | some err => some (.error err)
          | none => clientDo env followRedirects maxRedirects followHostRedirects fuel ⟨u⟩
              (via ++ [req])

/-- The call `client.Get(url)` of the client of `checkDomainStatus`. -/
def clientGet (env : Env) (followRedirects : Bool) (maxRedirects : Int)
    (followHostRedirects : Bool) (url : String) : Option (Except GoError Response) :=
  match env.Parse url with
  | .error err => some (.error err)
  | .ok u =>
    clientDo env followRedirects maxRedirects followHostRedirects (maxRedirects.toNat + 1) ⟨u⟩ []

/-- The function `getIP`. -/
def getIP (env : Env) (domain : String) : Except GoError String :=
  match env.LookupIP domain with
  | .error err => .error err
  | .ok ips => .ok ips.1

/-- The function `getTitle`. -/
def getTitle (env : Env) (url : String) : String :=
  match env.Get ("http://" ++ url) with
  | .error _ => ""
  | .ok body =>
    match env.TitleText body with
    | .error _ => ""
    | .ok title =>
      let title := TrimSpace title
      if title = "" then "" else title

/-- The hash `fnv.New64a` of a sequence of bytes. -/
def fnv64a (data : List UInt8) : Nat :=
  data.foldl (fun hash b => ((hash ^^^ b.toNat) * 1099511628211) % 2 ^ 64) 14695981039346656037

/-- The function `getFaviconHash`: it hashes the text of the path, not the body fetched. -/
def getFaviconHash (env : Env) (domain : String) : String :=
  match env.Get ("http://" ++ domain ++ "/favicon.ico") with
  | .error _ => "N/A"
  | .ok _ => ⟨Nat.toDigits 16 (fnv64a ("/favicon.ico".data.flatMap String.utf8EncodeChar))⟩

/-- The six values that `checkDomainStatus` returns, named as `main` names them. -/
structure Result where
  active : Bool
  ip : String
  statusCode : String
  title : String
  location : String
  faviconHash : String
  deriving DecidableEq, Repr

/-- The function `checkDomainStatus`; `none` only when the request loop runs out of fuel. -/
def checkDomainStatus (env : Env) (domain : String) (followRedirects : Bool)
    (maxRedirects : Int) (followHostRedirects : Bool)
    (showTitle showLocation showFavicon : Bool) : Option Result :=
  match clientGet env followRedirects maxRedirects followHostRedirects ("http://" ++ domain) with
  | none => none
  | some (.error _) => some ⟨false, "", "", "", "", ""⟩
  | some (.ok resp) =>
    let statusCode := toString resp.StatusCode
    if resp.StatusCode = 200 ∨ resp.StatusCode = 301 ∨ resp.StatusCode = 302 then
      match getIP env domain with
      | .error _ => some ⟨true, "N/A", statusCode, "", "", ""⟩
      | .ok ip =>
        let title := if showTitle then getTitle env domain else ""
        let location := if showLocation then resp.Location else ""
        let faviconHash := if showFavicon then getFaviconHash env domain else ""
        some ⟨true, ip, statusCode, title, location, faviconHash⟩
    else some ⟨false, "", statusCode, "", "", ""⟩

/-! ## The reporter -/

/-- The method `file.WriteString` on a file whose content is `file`: the content afterwards. -/
def WriteString (file s : String) : String :=
  file ++ s

/-- The function `writeOutput`: the content of the output file after the call. -/
def writeOutput (file domain ip statusCode title location faviconHash : String)
    (showIP showStatusCode showTitle showLocation showFavicon : Bool) : String :=
  let file := WriteString file (domain ++ " [Active]")
  let file := if showIP then WriteString file (" [IP: " ++ ip ++ "]") else file
  let file := if showStatusCode then WriteString file (" [Status Code: " ++ statusCode ++ "]")
    else file
  let file := if showTitle then WriteString file (" [Title:" ++ title ++ "]") else file
  let file := if showLocation then WriteString file (" [Location:" ++ location ++ "]") else file
  let file := if showFavicon then WriteString file (" [Favicon Hash:" ++ faviconHash ++ "]")
    else file
  WriteString file "\n"

/-- The function `writeIP`: the content of the IP output file after the call. -/
def writeIP (file ip : String) : String :=
  WriteString file (ip ++ "\n")

/-- The three texts a worker writes to: the console, the output file and the IP output file. -/
structure Sinks where
  console : String
  output : String
  outputIP : String
  deriving DecidableEq, Repr

/-- The part of the worker loop of `main` that follows the call of `checkDomainStatus`, for one
domain and its result, run without interleaving with other workers. -/
def report (outputFile outputIPFile : String)
    (showIP verbose showStatusCode showTitle showLocation showFavicon : Bool)
    (domain : String) (r : Result) (s : Sinks) : Sinks :=
  if r.active then
    let console := s.console ++ (domain ++ " ")
    let console := console ++ "[Active] "
    let console := if showIP then console ++ ("[IP:" ++ r.ip ++ "] ") else console
    let console := if showStatusCode then console ++ ("[Status Code:" ++ r.statusCode ++ "] ")
      else console
    let console := if showTitle then console ++ ("[Title:" ++ r.title ++ "] ") else console
    let console := if showLocation then console ++ ("[Location:" ++ r.location ++ "] ")
      else console
    let console := if showFavicon then console ++ ("[Favicon Hash:" ++ r.faviconHash ++ "] ")
      else console
    let console := console ++ "\n"
    let output := if outputFile ≠ "" then
        writeOutput s.output domain r.ip r.statusCode r.title r.location r.faviconHash
          showIP showStatusCode showTitle showLocation showFavicon
      else s.output
    let outputIP := if outputIPFile ≠ "" then writeIP s.outputIP r.ip else s.outputIP
    ⟨console, output, outputIP⟩
  else if verbose then
    let console := s.console ++ (domain ++ " ")
    let console := console ++ "[Not Active]\n"
    let output := if outputFile ≠ "" then
        writeOutput s.output domain "" r.statusCode "" "" ""
          showIP showStatusCode showTitle showLocation showFavicon
      else s.output
    ⟨console, output, s.outputIP⟩
  else s

/-- The bracketed segments of a line of output, in order: every piece of text from an opening
bracket to the next closing bracket. `cur` is the segment being read, if any. -/
def segmentsAux (cur : Option (List Char)) : List Char → List String
  | [] => []
  | c :: rest =>
    match cur with
    | none => if c = '[' then segmentsAux (some [c]) rest else segmentsAux none rest
    | some seg =>
      if c = ']' then String.mk (seg ++ [c]) :: segmentsAux none rest
      else segmentsAux (some (seg ++ [c])) rest

/-- The bracketed segments of a line of output. -/
def segments (line : String) : List String :=
  segmentsAux none line.data

/-- The enabled segments of a line, in the order of the console, with `sep` between the colon
and the value of the IP and status code segments. -/
def enabledSegments (sep : String) (showIP showStatusCode showTitle showLocation showFavicon : Bool)
    (r : Result) : List String :=
  (if showIP then ["[IP:" ++ sep ++ r.ip ++ "]"] else []) ++
  (if showStatusCode then ["[Status Code:" ++ sep ++ r.statusCode ++ "]"] else []) ++
  (if showTitle then ["[Title:" ++ r.title ++ "]"] else []) ++
  (if showLocation then ["[Location:" ++ r.location ++ "]"] else []) ++
  (if showFavicon then ["[Favicon Hash:" ++ r.faviconHash ++ "]"] else [])

/-! ## The worker pool -/

/-- The place of a worker goroutine in its loop. -/
inductive Worker where
  /-- At `for domain := range domainChannel`, waiting for a value. -/
  | receiving
  /-- At `semaphore <- struct{}{}`, with the domain received. -/
  | acquiring (domain : String)
  /-- In `checkDomainStatus`, holding a slot of the semaphore. -/
  | probing (domain : String)
  /-- Between the return of `checkDomainStatus` and `<-semaphore`: printing and writing. -/
  | reporting (domain : String)
  /-- After the loop, the channel being closed and drained. -/
  | exited
  deriving DecidableEq, Repr

/-- The shared state of `main` and its workers. -/
structure Pool where
  /-- The values that the sending loop of `main` has still to send, in order. -/
  pending : List String
  /-- Whether `close(domainChannel)` has run. -/
  closed : Bool
  /-- The number of values in the buffered channel `semaphore`. -/
  semaphore : Nat
  /-- The workers, in the order in which `main` launched them. -/
  workers : List Worker
  deriving DecidableEq, Repr

/-- A worker holds a slot of the semaphore from its send on `semaphore` to its receive. -/
def Worker.inFlight : Worker → Bool
  | .probing _ => true
  | .reporting _ => true
  | _ => false

/-- The number of probes in flight. -/
def Pool.inFlight (p : Pool) : Nat :=
  p.workers.countP Worker.inFlight

/-- The state after `main` has launched `numThreads` workers, before its first send. -/
def Pool.start (numThreads : Nat) (candidates : List String) : Pool :=
  ⟨candidates, false, 0, List.replicate numThreads Worker.receiving⟩

/-- One atomic step of the program: `main` closes the channel, or a worker moves on. -/
inductive Action where
  | close
  | worker (i : Nat)
  deriving DecidableEq, Repr

/-- The next step of worker `i`, `none` when the worker is blocked or gone. A receive on the
unbuffered `domainChannel` happens together with the send of `main`; a send on `semaphore`,
which is made with capacity `rateLimit`, needs room in the buffer, and a receive needs a value
in it. -/
def Pool.stepWorker (rateLimit : Nat) (p : Pool) (i : Nat) : Option Pool :=
  match p.workers[i]? with
  | none => none
  | some Worker.receiving =>
    match p.pending with
    | domain :: rest =>
      some { p with pending := rest, workers := p.workers.set i (Worker.acquiring domain) }
    | [] => if p.closed then some { p with workers := p.workers.set i Worker.exited } else none
  | some (Worker.acquiring domain) =>
    if p.semaphore < rateLimit then
      some { p with semaphore := p.semaphore + 1,
                    workers := p.workers.set i (Worker.probing domain) }
    else none
  | some (Worker.probing domain) =>
    some { p with workers := p.workers.set i (Worker.reporting domain) }
  | some (Worker.reporting _) =>
    if 0 < p.semaphore then
      some { p with semaphore := p.semaphore - 1, workers := p.workers.set i Worker.receiving }
    else none
  | some Worker.exited => none

/-- One step of the pool. -/
def Pool.step (rateLimit : Nat) (p : Pool) : Action → Option Pool
  | Action.close =>
    if p.pending = [] ∧ p.closed = false then some { p with closed := true } else none
  | Action.worker i => p.stepWorker rateLimit i

/-- A run of the pool along a schedule, `none` when the schedule asks for a step that cannot be
taken. -/
def Pool.run (rateLimit : Nat) (p : Pool) : List Action → Option Pool
  | [] => some p
  | a :: rest =>
    match p.step rateLimit a with
    | none => none
    | some q => q.run rateLimit rest

/-- The states that the pool of `numThreads` workers reaches on some schedule. -/
def Pool.Reachable (numThreads rateLimit : Nat) (candidates : List String) (p : Pool) : Prop :=
  ∃ schedule, (Pool.start numThreads candidates).run rateLimit schedule = some p

/-! ## A concrete environment -/

/-- A small world for the examples: a TLD file with a blank second line, a host `example.com`
that answers 301 to `/home` and then 200 and has an address, a host `example.org` that answers
404, and a host `example.net` that redirects for ever and has no address. -/
def exampleEnv : Env where
  Open := fun filename =>
    if filename = "tlds.txt" then .ok "com\n\nnet\n" else .error (GoError.external "no such file")
  Create := fun _ => .ok ()
  Parse := fun url => .ok ⟨"http", ⟨url.data.drop 7⟩, ""⟩
  Reparse := fun u => .ok u
  Resolve := fun u ref => .ok ⟨u.Scheme, u.Host, ref⟩
  RoundTrip := fun u =>
    if u.Host = "example.com" then
      if u.Path = "" then .ok ⟨301, "/home"⟩ else .ok ⟨200, ""⟩
    else if u.Host = "example.org" then .ok ⟨404, ""⟩
    else if u.Host = "example.net" then .ok ⟨302, "/next"⟩
    else .error (GoError.external "no such host")
  LookupIP := fun domain =>
    if domain = "example.com" then .ok ("93.184.216.34", [])
    else .error (GoError.external "no such host")
  Get := fun _ => .ok "<title> Example Domain </title>"
  TitleText := fun _ => .ok " Example Domain "

/-- The world of `exampleEnv` with a resolver that fails for every name. -/
def exampleEnvNoIP : Env :=
  { exampleEnv with LookupIP := fun _ => .error (GoError.external "no such host") }

/-- The states through which the request loop of the client passes when it starts with the
request `first`: a request about to be sent and the requests made before it, oldest first. The
loop goes on from a state when the response is a redirect with a `Location` that resolves and
the redirect policy answers `nil`. -/
inductive Visits (env : Env) (followRedirects : Bool) (maxRedirects : Int)
    (followHostRedirects : Bool) (first : Request) : Request → List Request → Prop where
  | start : Visits env followRedirects maxRedirects followHostRedirects first first []
  | follow {req : Request} {via : List Request} {resp : Response} {u : URL} :
    Visits env followRedirects maxRedirects followHostRedirects first req via →
    env.RoundTrip req.URL = .ok resp →
    shouldRedirect resp = true →
    resp.Location ≠ "" →
    env.Resolve req.URL resp.Location = .ok u →
    CheckRedirect env followRedirects maxRedirects followHostRedirects ⟨u⟩ (via ++ [req]) = none →
    Visits env followRedirects maxRedirects followHostRedirects first ⟨u⟩ (via ++ [req])

/-! # Theorems -/

/-! ## The candidate generator -/

/-- The sending loop appends one candidate per TLD to what was sent before. -/
theorem sendDomains_eq (baseDomain : String) (sent tldList : List String) :
    sendDomains baseDomain sent tldList
      = sent ++ tldList.map (fun tld => baseDomain ++ "." ++ tld) := by
  induction tldList generalizing sent with
  | nil => simp [sendDomains]
  | cons tld rest ih => simp [sendDomains, ih]

/-- C2: the values sent on the channel are as many as the TLDs, and the value at every index
is the base domain, a dot and the TLD at that index. -/
theorem sendDomains_spec (baseDomain : String) (tldList : List String) :
    (sendDomains baseDomain [] tldList).length = tldList.length ∧
    ∀ i : Nat, (sendDomains baseDomain [] tldList)[i]?
      = (tldList[i]?).map (fun tld => baseDomain ++ "." ++ tld) := by
  simp [sendDomains_eq]

/-! ## The line scanner -/

/-- The scanner on a line that ends with a line feed. -/
theorem scanLoop_line (lines : List String) (acc l rest : List Char) (h : '\n' ∉ l) :
    scanLoop lines acc (l ++ '\n' :: rest)
      = if tooLong (acc ++ l) then (lines, some GoError.ErrTooLong)
        else scanLoop (lines ++ [TrimSpace ⟨dropCR (acc ++ l)⟩]) [] rest := by
  induction l generalizing acc with
  | nil => simp [scanLoop]
  | cons c l ih =>
    have hc : c ≠ '\n' := fun e => h (by simp [e])
    have hl : '\n' ∉ l := fun e => h (by simp [e])
    simp [scanLoop, hc, ih _ hl]

/-- The scanner on a last line without a line feed. -/
theorem scanLoop_last (lines : List String) (acc l : List Char) (h : '\n' ∉ l) :
    scanLoop lines acc l
      = if acc ++ l = [] then (lines, none)
        else if tooLong (acc ++ l) then (lines, some GoError.ErrTooLong)
        else (lines ++ [TrimSpace ⟨dropCR (acc ++ l)⟩], none) := by
  induction l generalizing acc with
  | nil => simp [scanLoop]
  | cons c l ih =>
    have hc : c ≠ '\n' := fun e => h (by simp [e])
    have hl : '\n' ∉ l := fun e => h (by simp [e])
    simp [scanLoop, hc, ih _ hl]

/-- A line shorter than the buffer is not too long. -/
theorem tooLong_eq_false {l : List Char} (h : byteLen l < MaxScanTokenSize) :
    tooLong l = false := by
  simp [tooLong]; omega

/-- The scanner on a whole file, line by line. -/
theorem scanLoop_lines (lines : List String) (ls : List (List Char)) (last : List Char)
    (hls : ∀ l ∈ ls, '\n' ∉ l ∧ byteLen l < MaxScanTokenSize)
    (hlast : '\n' ∉ last ∧ byteLen last < MaxScanTokenSize) :
    scanLoop lines [] (ls.flatMap (fun l => l ++ ['\n']) ++ last)
      = (lines ++ (ls ++ if last = [] then [] else [last]).map
          (fun l => TrimSpace ⟨dropCR l⟩), none) := by
  induction ls generalizing lines with
  | nil =>
    rw [List.flatMap_nil, List.nil_append, scanLoop_last _ _ _ hlast.1]
    by_cases h : last = []
    · simp [h]
    · simp [h, tooLong_eq_false hlast.2]
  | cons l ls ih =>
    have h1 := hls l (by simp)
    have h2 : ∀ l ∈ ls, '\n' ∉ l ∧ byteLen l < MaxScanTokenSize :=
      fun x hx => hls x (by simp [hx])
    rw [List.flatMap_cons, List.append_assoc, List.append_assoc, List.singleton_append,
      scanLoop_line _ _ _ _ h1.1]
    simp [tooLong_eq_false h1.2, ih _ h2]

/-! ## Trimming -/

/-- The carriage return is white space. -/
theorem isSpace_CR : isSpace '\r' = true := by decide

/-- A white space at the end does not change what trimming leaves. -/
theorem trim_concat_space (l : List Char) (c : Char) (hc : isSpace c = true) :
    ((l ++ [c]).dropWhile isSpace).rdropWhile isSpace
      = (l.dropWhile isSpace).rdropWhile isSpace := by
  rw [List.dropWhile_append]
  by_cases h : (l.dropWhile isSpace).isEmpty = true
  · have h' : l.dropWhile isSpace = [] := by simpa using h
    simp [h', hc, List.dropWhile]
  · simp only [h]
    simp [List.rdropWhile_concat_pos _ _ _ hc]

/-- Trimming makes the removal of the carriage return invisible. -/
theorem TrimSpace_dropCR (l : List Char) : TrimSpace ⟨dropCR l⟩ = TrimSpace ⟨l⟩ := by
  unfold dropCR
  split
  · rename_i h
    have hne : l ≠ [] := by rintro rfl; simp at h
    have hlast : l.getLast hne = '\r' := by
      rw [List.getLast?_eq_getLast _ hne] at h
      exact Option.some.inj h
    have hl : l = l.dropLast ++ ['\r'] := by
      conv_lhs => rw [← List.dropLast_append_getLast hne, hlast]
    unfold TrimSpace
    congr 1
    show (l.dropLast.dropWhile isSpace).rdropWhile isSpace
      = (l.dropWhile isSpace).rdropWhile isSpace
    conv_rhs => rw [hl]
    exact (trim_concat_space _ _ isSpace_CR).symm
  · rfl

/-- A trimmed text does not start with white space. -/
theorem TrimSpace_head (s : String) (c : Char) (h : (TrimSpace s).data.head? = some c) :
    isSpace c = false := by
  unfold TrimSpace at h
  simp only at h
  have hp : (s.data.dropWhile isSpace).rdropWhile isSpace <+: s.data.dropWhile isSpace :=
    List.rdropWhile_prefix _ _
  obtain ⟨t, ht⟩ := hp
  have hd : (s.data.dropWhile isSpace).head? = some c := by
    rw [← ht, List.head?_append, h]; rfl
  have := List.head?_dropWhile_not isSpace s.data
  rw [hd] at this
  simpa using this

/-- A trimmed text does not end with white space. -/
theorem TrimSpace_getLast (s : String) (c : Char) (h : (TrimSpace s).data.getLast? = some c) :
    isSpace c = false := by
  unfold TrimSpace at h
  simp only at h
  have hne : (s.data.dropWhile isSpace).rdropWhile isSpace ≠ [] := by
    intro e; rw [e] at h; simp at h
  have := List.rdropWhile_last_not isSpace (s.data.dropWhile isSpace) hne
  rw [List.getLast?_eq_getLast _ hne] at h
  rw [Option.some.inj h] at this
  simpa using this

/-- A text of white space only is trimmed to the empty text. -/
theorem TrimSpace_blank (l : List Char) (h : ∀ c ∈ l, isSpace c = true) :
    TrimSpace ⟨l⟩ = "" := by
  unfold TrimSpace
  have : l.dropWhile isSpace = [] := List.dropWhile_eq_nil_iff.mpr h
  simp [this]

/-! ## The TLD file -/

/-- C6, as the code has it: a file of lines `ls`, each ended by a line feed, and a last line
`last` without one gives one entry per line, in order, each the line without its leading and
trailing white space; no entry starts or ends with white space; a blank or white-space-only
line is not skipped but gives the empty entry, and the candidate made of the base domain and a
dot is sent for it. -/
theorem readLines_entries (env : Env) (filename : String) (ls : List (List Char))
    (last : List Char)
    (hopen : env.Open filename = .ok ⟨ls.flatMap (fun l => l ++ ['\n']) ++ last⟩)
    (hls : ∀ l ∈ ls, '\n' ∉ l ∧ byteLen l < MaxScanTokenSize)
    (hlast : '\n' ∉ last ∧ byteLen last < MaxScanTokenSize) :
    readLines env filename
      = ((ls ++ if last = [] then [] else [last]).map (fun l => TrimSpace ⟨l⟩), none) ∧
    (∀ e ∈ (readLines env filename).1, ∀ c : Char,
      e.data.head? = some c ∨ e.data.getLast? = some c → isSpace c = false) ∧
    (∀ l ∈ ls, (∀ c ∈ l, isSpace c = true) →
      "" ∈ (readLines env filename).1 ∧
      ∀ baseDomain : String,
        baseDomain ++ "." ∈ sendDomains baseDomain [] (readLines env filename).1) := by
  have hread : readLines env filename
      = ((ls ++ if last = [] then [] else [last]).map (fun l => TrimSpace ⟨l⟩), none) := by
    unfold readLines
    rw [hopen]
    simp only
    rw [scanLoop_lines [] ls last hls hlast]
    simp [TrimSpace_dropCR]
  refine ⟨hread, ?_, ?_⟩
  · intro e he c hc
    rw [hread] at he
    obtain ⟨l, -, rfl⟩ := List.mem_map.mp he
    rcases hc with hc | hc
    · exact TrimSpace_head _ _ hc
    · exact TrimSpace_getLast _ _ hc
  · intro l hl hblank
    have hmem : "" ∈ (readLines env filename).1 := by
      rw [hread]
      refine List.mem_map.mpr ⟨l, by simp [hl], TrimSpace_blank l hblank⟩
    refine ⟨hmem, fun baseDomain => ?_⟩
    rw [sendDomains_eq]
    simp only [List.nil_append]
    exact List.mem_map.mpr ⟨"", hmem, by simp⟩

/-- C6, witness: the file `tlds.txt` of the example world. -/
theorem readLines_entries_witness :
    readLines exampleEnv "tlds.txt" = (["com", "", "net"], none) ∧
    "example." ∈ sendDomains "example" [] (readLines exampleEnv "tlds.txt").1 :=
  have h := readLines_entries exampleEnv "tlds.txt" ["com".data, [], "net".data] [] rfl
    (by decide) (by decide)
  ⟨h.1, (h.2.2 [] (by simp) (by simp)).2 "example"⟩

/-- C6, counterexample: the blank second line of `tlds.txt` is not skipped: `readLines` returns
an empty entry for it and `main` sends the candidate `example.` on the channel. -/
theorem readLines_blank_line_kept :
    exampleEnv.Open "tlds.txt" = .ok "com\n\nnet\n" ∧
    readLines exampleEnv "tlds.txt" = (["com", "", "net"], none) ∧
    mainCandidates exampleEnv "example" "tlds.txt" "" ""
      = ["example.com", "example.", "example.net"] :=
  ⟨rfl, by decide, by decide⟩

/-! ## The redirect policy and the request loop -/

/-- The policy answers `nil` only with redirects followed and below the limit. -/
theorem CheckRedirect_none {env : Env} {followRedirects : Bool} {maxRedirects : Int}
    {followHostRedirects : Bool} {req : Request} {via : List Request}
    (h : CheckRedirect env followRedirects maxRedirects followHostRedirects req via = none) :
    followRedirects = true ∧ (via.length : Int) < maxRedirects := by
  unfold CheckRedirect at h
  cases followRedirects
  · simp at h
  · by_cases hlen : (via.length : Int) ≥ maxRedirects
    · simp [hlen] at h
    · exact ⟨rfl, by omega⟩

/-- The answer of the policy at the limit. -/
theorem CheckRedirect_limit (env : Env) (maxRedirects : Int) (followHostRedirects : Bool)
    (req : Request) (via : List Request) (h : maxRedirects ≤ (via.length : Int)) :
    CheckRedirect env true maxRedirects followHostRedirects req via
      = some (GoError.Errorf ("stopped after " ++ toString maxRedirects ++ " redirects")) := by
  simp [CheckRedirect, h]

/-- The request loop does not run out of fuel when it has one unit of it for every request
that the limit still allows. -/
theorem clientDo_ne_none (env : Env) (followRedirects : Bool) (maxRedirects : Int)
    (followHostRedirects : Bool) (fuel : Nat) (req : Request) (via : List Request)
    (hfuel : 1 ≤ fuel) (hsum : maxRedirects.toNat + 1 ≤ fuel + via.length) :
    clientDo env followRedirects maxRedirects followHostRedirects fuel req via ≠ none := by
  induction fuel generalizing req via with
  | zero => omega
  | succ fuel ih =>
    unfold clientDo
    split
    · simp
    · split
      · simp
      · split
        · simp
        · split
          · simp
          · split
            · simp
            · simp
            · rename_i hcr
              have hlt := (CheckRedirect_none hcr).2
              simp only [List.length_append, List.length_singleton] at hlt
              apply ih
              · omega
              · simp only [List.length_append, List.length_singleton]; omega

/-- More fuel does not change a result of the request loop. -/
theorem clientDo_fuel_mono (env : Env) (followRedirects : Bool) (maxRedirects : Int)
    (followHostRedirects : Bool) (fuel extra : Nat) (req : Request) (via : List Request)
    (result : Except GoError Response)
    (h : clientDo env followRedirects maxRedirects followHostRedirects fuel req via
      = some result) :
    clientDo env followRedirects maxRedirects followHostRedirects (fuel + extra) req via
      = some result := by
  induction fuel generalizing req via with
  | zero => simp [clientDo] at h
  | succ fuel ih =>
    have hfuel : fuel + 1 + extra = (fuel + extra) + 1 := by omega
    rw [hfuel]
    unfold clientDo at h ⊢
    cases hrt : env.RoundTrip req.URL with
    | error err => simpa [hrt] using h
    | ok resp =>
      simp only [hrt] at h ⊢
      by_cases hred : shouldRedirect resp = true
      · by_cases hloc : resp.Location = ""
        · simpa [hred, hloc] using h
        · cases hres : env.Resolve req.URL resp.Location with
          | error err => simpa [hred, hloc, hres] using h
          | ok u =>
            cases hcr : CheckRedirect env followRedirects maxRedirects followHostRedirects
                ⟨u⟩ (via ++ [req]) with
            | none =>
              simp only [hred, hloc, hres, hcr] at h ⊢
              simp only [Bool.not_true, Bool.false_eq_true, if_false] at h ⊢
              exact ih _ _ h
            | some err => cases err <;> simpa [hred, hloc, hres, hcr] using h
      · simpa [hred] using h

/-- The request loop, started at any state it passes through, returns what it returns from
the first request. -/
theorem clientDo_visits {env : Env} {followRedirects : Bool} {maxRedirects : Int}
    {followHostRedirects : Bool} {first req : Request} {via : List Request}
    (h : Visits env followRedirects maxRedirects followHostRedirects first req via) :
    via.length ≤ maxRedirects.toNat ∧
    clientDo env followRedirects maxRedirects followHostRedirects
        (maxRedirects.toNat + 1 - via.length) req via
      = clientDo env followRedirects maxRedirects followHostRedirects
        (maxRedirects.toNat + 1) first [] := by
  induction h with
  | start => simp
  | @follow req via resp u _ hrt hred hloc hres hcr ih =>
    have hlt := (CheckRedirect_none hcr).2
    simp only [List.length_append, List.length_singleton] at hlt ⊢
    have hlt' : via.length + 1 < maxRedirects.toNat := by omega
    refine ⟨by omega, ?_⟩
    rw [← ih.2]
    have hfuel : maxRedirects.toNat + 1 - via.length
        = (maxRedirects.toNat + 1 - (via.length + 1)) + 1 := by omega
    conv_rhs => rw [hfuel, clientDo]
    simp [hrt, hred, hloc, hres, hcr]

/-- The call `client.Get` always returns. -/
theorem clientGet_ne_none (env : Env) (followRedirects : Bool) (maxRedirects : Int)
    (followHostRedirects : Bool) (url : String) :
    clientGet env followRedirects maxRedirects followHostRedirects url ≠ none := by
  unfold clientGet
  split
  · simp
  · exact clientDo_ne_none _ _ _ _ _ _ _ (by omega) (by simp)

/-- The function `checkDomainStatus` always returns. -/
theorem checkDomainStatus_total (env : Env) (domain : String) (followRedirects : Bool)
    (maxRedirects : Int) (followHostRedirects showTitle showLocation showFavicon : Bool) :
    ∃ r, checkDomainStatus env domain followRedirects maxRedirects followHostRedirects
      showTitle showLocation showFavicon = some r := by
  have h := clientGet_ne_none env followRedirects maxRedirects followHostRedirects
    ("http://" ++ domain)
  unfold checkDomainStatus
  split
  · contradiction
  · exact ⟨_, rfl⟩
  · simp only
    split
    · split <;> exact ⟨_, rfl⟩
    · exact ⟨_, rfl⟩

/-- The host loop answers `nil` when every host is the same as that of the target, and
`ErrUseLastResponse` otherwise. -/
theorem hostLoop_eq (env : Env) (u : URL) (via : List Request)
    (hvia : ∀ p ∈ via, ∃ v, env.Reparse p.URL = .ok v ∧ v.Host = p.URL.Host) :
    ((∀ p ∈ via, u.Host = p.URL.Host) → hostLoop env u via = none) ∧
    (¬ (∀ p ∈ via, u.Host = p.URL.Host) →
      hostLoop env u via = some GoError.ErrUseLastResponse) := by
  induction via with
  | nil => simp [hostLoop]
  | cons p rest ih =>
    obtain ⟨v, hv, hhost⟩ := hvia p (by simp)
    have ih' := ih (fun q hq => hvia q (by simp [hq]))
    by_cases hp : u.Host = p.URL.Host
    · constructor
      · intro hall
        simp only [hostLoop, hv, hhost, hp, bne_self_eq_false, Bool.false_eq_true, if_false]
        exact ih'.1 (fun q hq => hall q (by simp [hq]))
      · intro hnot
        simp only [hostLoop, hv, hhost, hp, bne_self_eq_false, Bool.false_eq_true, if_false]
        apply ih'.2
        intro hall
        apply hnot
        intro q hq
        rcases List.mem_cons.mp hq with rfl | hq
        · exact hp
        · exact hall q hq
    · constructor
      · intro hall
        exact absurd (hall p (by simp)) hp
      · intro _
        simp [hostLoop, hv, hhost, hp]

/-- C1: when the primary request returns a response, `checkDomainStatus` returns a result that
is active exactly when the status is 200, 301 or 302, and whose status code is the decimal
rendering of the status in both cases. -/
theorem checkDomainStatus_active_iff (env : Env) (domain : String) (followRedirects : Bool)
    (maxRedirects : Int) (followHostRedirects showTitle showLocation showFavicon : Bool)
    (resp : Response)
    (h : clientGet env followRedirects maxRedirects followHostRedirects ("http://" ++ domain)
      = some (.ok resp)) :
    ∃ r, checkDomainStatus env domain followRedirects maxRedirects followHostRedirects
        showTitle showLocation showFavicon = some r ∧
      (r.active = true ↔
        resp.StatusCode = 200 ∨ resp.StatusCode = 301 ∨ resp.StatusCode = 302) ∧
      r.statusCode = toString resp.StatusCode := by
  unfold checkDomainStatus
  rw [h]
  simp only
  by_cases hs : resp.StatusCode = 200 ∨ resp.StatusCode = 301 ∨ resp.StatusCode = 302
  · rw [if_pos hs]
    cases getIP env domain with
    | error e => exact ⟨_, rfl, by simpa using hs, rfl⟩
    | ok ip => exact ⟨_, rfl, by simpa using hs, rfl⟩
  · rw [if_neg hs]
    exact ⟨_, rfl, by simpa using hs, rfl⟩

/-- C1, witness: `example.org` answers 404: the result is not active and its status code is
the text `404`. -/
theorem checkDomainStatus_active_iff_witness :
    clientGet exampleEnv false 10 false "http://example.org" = some (.ok ⟨404, ""⟩) ∧
    ∃ r, checkDomainStatus exampleEnv "example.org" false 10 false true true true = some r ∧
      (r.active = true ↔ (404 : Int) = 200 ∨ (404 : Int) = 301 ∨ (404 : Int) = 302) ∧
      r.statusCode = "404" :=
  ⟨rfl, checkDomainStatus_active_iff exampleEnv "example.org" false 10 false true true true
    ⟨404, ""⟩ rfl⟩

/-- C3: with redirects followed and the same-host restriction on, below the limit, and for
requests whose URLs the URL parser reads back with the same host, the policy follows a redirect
exactly when the host of its target is the same text as the host of every request made so far;
otherwise it answers `ErrUseLastResponse`, which is no failure, and the client returns the
response it received last. -/
theorem CheckRedirect_same_host (env : Env) (maxRedirects : Int) (req : Request)
    (via : List Request) (hlen : (via.length : Int) < maxRedirects)
    (hreq : ∃ v, env.Reparse req.URL = .ok v ∧ v.Host = req.URL.Host)
    (hvia : ∀ p ∈ via, ∃ v, env.Reparse p.URL = .ok v ∧ v.Host = p.URL.Host) :
    (CheckRedirect env true maxRedirects false req via = none ↔
      ∀ p ∈ via, req.URL.Host = p.URL.Host) ∧
    (¬ (∀ p ∈ via, req.URL.Host = p.URL.Host) →
      CheckRedirect env true maxRedirects false req via = some GoError.ErrUseLastResponse ∧
      ∀ (fuel : Nat) (prev : Request) (before : List Request) (resp : Response),
        via = before ++ [prev] → env.RoundTrip prev.URL = .ok resp →
        shouldRedirect resp = true → resp.Location ≠ "" →
        env.Resolve prev.URL resp.Location = .ok req.URL →
        clientDo env true maxRedirects false (fuel + 1) prev before = some (.ok resp)) := by
  obtain ⟨v, hv, hhost⟩ := hreq
  have hloop := hostLoop_eq env v via hvia
  rw [hhost] at hloop
  have hcr : CheckRedirect env true maxRedirects false req via = hostLoop env v via := by
    have : ¬ (maxRedirects ≤ (via.length : Int)) := by omega
    simp [CheckRedirect, this, hv]
  have hstop : ¬ (∀ p ∈ via, req.URL.Host = p.URL.Host) →
      CheckRedirect env true maxRedirects false req via = some GoError.ErrUseLastResponse :=
    fun hnot => by rw [hcr]; exact hloop.2 hnot
  refine ⟨⟨fun h => ?_, fun h => by rw [hcr]; exact hloop.1 h⟩, fun hnot => ⟨hstop hnot, ?_⟩⟩
  · by_contra hnot
    rw [hstop hnot] at h
    simp at h
  · intro fuel prev before resp hvia' hrt hred hloc hres
    have hcr' := hstop hnot
    rw [hvia'] at hcr'
    unfold clientDo
    simp [hrt, hred, hloc, hres, hcr']

/-- C3, witness: a redirect from `example.com` to `Example.com` is not followed, the two hosts
being different texts; the policy answers `ErrUseLastResponse`. -/
theorem CheckRedirect_same_host_witness :
    (([⟨⟨"http", "example.com", ""⟩⟩] : List Request).length : Int) < 10 ∧
    CheckRedirect exampleEnv true 10 false ⟨⟨"http", "Example.com", "/"⟩⟩
      [⟨⟨"http", "example.com", ""⟩⟩] = some GoError.ErrUseLastResponse :=
  ⟨by decide,
    ((CheckRedirect_same_host exampleEnv 10 ⟨⟨"http", "Example.com", "/"⟩⟩
      [⟨⟨"http", "example.com", ""⟩⟩] (by decide) ⟨_, rfl, rfl⟩
      (fun p _ => ⟨p.URL, rfl, rfl⟩)).2 (by decide)).1⟩

/-- C4: with redirects followed and a limit that is not negative, the policy never answers
`nil` when the requests made so far are as many as the limit or more, and the request loop
never has more than `maxRedirects` requests behind it: it follows at most that many hops. -/
theorem CheckRedirect_maxRedirects (env : Env) (maxRedirects : Int)
    (followHostRedirects : Bool) (hmax : 0 ≤ maxRedirects) :
    (∀ (req : Request) (via : List Request), maxRedirects ≤ (via.length : Int) →
      CheckRedirect env true maxRedirects followHostRedirects req via ≠ none) ∧
    (∀ (first req : Request) (via : List Request),
      Visits env true maxRedirects followHostRedirects first req via →
      (via.length : Int) ≤ maxRedirects) := by
  constructor
  · intro req via hlen h
    have := (CheckRedirect_none h).2
    omega
  · intro first req via h
    have := (clientDo_visits h).1
    omega

/-- C4, witness: with the limit 1 the redirect that `example.net` sends in answer to the first
request is not followed. -/
theorem CheckRedirect_maxRedirects_witness :
    (0 : Int) ≤ 1 ∧
    CheckRedirect exampleEnv true 1 true ⟨⟨"http", "example.net", "/next"⟩⟩
      [⟨⟨"http", "example.net", ""⟩⟩] ≠ none :=
  ⟨by decide,
    (CheckRedirect_maxRedirects exampleEnv 1 true (by decide)).1 _
      [⟨⟨"http", "example.net", ""⟩⟩] (by decide)⟩

/-- C7, as the code has it: with redirects followed, when the request loop receives a redirect
and the requests made, this one included, are as many as the limit or more, `client.Get`
returns the error of the policy, and `checkDomainStatus` reports the probe as it reports a
transport failure: not active, with no status code and no other field. -/
theorem checkDomainStatus_maxRedirects (env : Env) (domain : String) (maxRedirects : Int)
    (followHostRedirects showTitle showLocation showFavicon : Bool)
    (first u : URL) (req : Request) (via : List Request) (resp : Response)
    (hparse : env.Parse ("http://" ++ domain) = .ok first)
    (hvisits : Visits env true maxRedirects followHostRedirects ⟨first⟩ req via)
    (hresp : env.RoundTrip req.URL = .ok resp)
    (hredirect : shouldRedirect resp = true)
    (hlocation : resp.Location ≠ "")
    (hresolve : env.Resolve req.URL resp.Location = .ok u)
    (hlimit : maxRedirects ≤ (via.length : Int) + 1) :
    clientGet env true maxRedirects followHostRedirects ("http://" ++ domain)
      = some (.error (GoError.Errorf
          ("stopped after " ++ toString maxRedirects ++ " redirects"))) ∧
    checkDomainStatus env domain true maxRedirects followHostRedirects
      showTitle showLocation showFavicon = some ⟨false, "", "", "", "", ""⟩ := by
  have hv := clientDo_visits hvisits
  have hcr := CheckRedirect_limit env maxRedirects followHostRedirects ⟨u⟩ (via ++ [req])
    (by simp only [List.length_append, List.length_singleton]; omega)
  have hfuel : maxRedirects.toNat + 1 - via.length
      = (maxRedirects.toNat - via.length) + 1 := by omega
  have hget : clientGet env true maxRedirects followHostRedirects ("http://" ++ domain)
      = some (.error (GoError.Errorf
          ("stopped after " ++ toString maxRedirects ++ " redirects"))) := by
    unfold clientGet
    rw [hparse]
    simp only
    rw [← hv.2, hfuel, clientDo]
    simp [hresp, hredirect, hlocation, hresolve, hcr]
  refine ⟨hget, ?_⟩
  unfold checkDomainStatus
  rw [hget]

/-- C7, witness: `example.net` with the limit 1. -/
theorem checkDomainStatus_maxRedirects_witness :
    exampleEnv.RoundTrip ⟨"http", "example.net", ""⟩ = .ok ⟨302, "/next"⟩ ∧
    checkDomainStatus exampleEnv "example.net" true 1 true true true true
      = some ⟨false, "", "", "", "", ""⟩ :=
  ⟨rfl,
    (checkDomainStatus_maxRedirects exampleEnv "example.net" 1 true true true true
      ⟨"http", "example.net", ""⟩ ⟨"http", "example.net", "/next"⟩
      ⟨⟨"http", "example.net", ""⟩⟩ [] ⟨302, "/next"⟩ rfl Visits.start rfl rfl (by decide) rfl
      (by decide)).2⟩

/-- C7, counterexample: `example.net` answers 302 to the first request; with the limit 1 the
policy stops the chain there, and the result is not active and has no status code, where the
claim has it active with the status code `302`. -/
theorem checkDomainStatus_stop_is_failure :
    exampleEnv.RoundTrip ⟨"http", "example.net", ""⟩ = .ok ⟨302, "/next"⟩ ∧
    CheckRedirect exampleEnv true 1 true ⟨⟨"http", "example.net", "/next"⟩⟩
      [⟨⟨"http", "example.net", ""⟩⟩] = some (GoError.Errorf "stopped after 1 redirects") ∧
    checkDomainStatus exampleEnv "example.net" true 1 true false false false
      = some ⟨false, "", "", "", "", ""⟩ ∧
    checkDomainStatus exampleEnv "example.net" true 1 true false false false
      ≠ some ⟨true, "N/A", "302", "", "", ""⟩ :=
  ⟨rfl, by decide, by decide, by decide⟩

/-- C8: the code at an active response whose address lookup fails. In the example world
`example.com` answers 301 with a `Location`; when the lookup succeeds the result has the
title, the location and the favicon hash asked for; when the lookup fails the result has the
address `N/A` and the same status code, but the title, the location and the favicon hash are
empty. -/
theorem checkDomainStatus_lookup_failure :
    checkDomainStatus exampleEnv "example.com" false 10 false true true true
      = some ⟨true, "93.184.216.34", "301", "Example Domain", "/home", "4ebcd113f77428bd"⟩ ∧
    checkDomainStatus exampleEnvNoIP "example.com" false 10 false true true true
      = some ⟨true, "N/A", "301", "", "", ""⟩ :=
  ⟨by decide, by decide⟩

/-! ## The reporter -/

/-- C9, as the code has it for an active result: the console line is the domain, `[Active]`
and the enabled segments, each followed by a blank, and a line break; the line of the output
file is the domain, `[Active]` and the same enabled segments in the same order, each after a
blank, and one line break, where the IP and status code segments have a blank after the colon
that the console does not have. -/
theorem report_active_lines (outputFile outputIPFile : String)
    (showIP verbose showStatusCode showTitle showLocation showFavicon : Bool)
    (domain : String) (r : Result) (s : Sinks)
    (hactive : r.active = true) (houtput : outputFile ≠ "") :
    (report outputFile outputIPFile showIP verbose showStatusCode showTitle showLocation
        showFavicon domain r s).console
      = s.console ++ domain ++ " [Active] " ++
        String.join ((enabledSegments "" showIP showStatusCode showTitle showLocation
          showFavicon r).map (fun seg => seg ++ " ")) ++ "\n" ∧
    (report outputFile outputIPFile showIP verbose showStatusCode showTitle showLocation
        showFavicon domain r s).output
      = s.output ++ domain ++ " [Active]" ++
        String.join ((enabledSegments " " showIP showStatusCode showTitle showLocation
          showFavicon r).map (fun seg => " " ++ seg)) ++ "\n" := by
  have hsp : (" " : String) ++ "[Active] " = " [Active] " := by decide
  have h1 : ∀ x : String, " " ++ ("[IP: " ++ x) = " [IP: " ++ x := fun x => by
    rw [← String.append_assoc]; rfl
  have h2 : ∀ x : String, " " ++ ("[Status Code: " ++ x) = " [Status Code: " ++ x := fun x => by
    rw [← String.append_assoc]; rfl
  have h3 : ∀ x : String, " " ++ ("[Title:" ++ x) = " [Title:" ++ x := fun x => by
    rw [← String.append_assoc]; rfl
  have h4 : ∀ x : String, " " ++ ("[Location:" ++ x) = " [Location:" ++ x := fun x => by
    rw [← String.append_assoc]; rfl
  have h5 : ∀ x : String, " " ++ ("[Favicon Hash:" ++ x) = " [Favicon Hash:" ++ x := fun x => by
    rw [← String.append_assoc]; rfl
  cases showIP <;> cases showStatusCode <;> cases showTitle <;> cases showLocation <;>
    cases showFavicon <;>
    simp [report, writeOutput, WriteString, enabledSegments, hactive, houtput, String.join,
      String.append_assoc, hsp, h1, h2, h3, h4, h5]

/-- C9, witness: an active `example.com` with the IP segment enabled. -/
theorem report_active_lines_witness :
    (report "out.txt" "" true false false false false false "example.com"
        ⟨true, "93.184.216.34", "200", "", "", ""⟩ ⟨"", "", ""⟩).console
      = "example.com [Active] [IP:93.184.216.34] \n" ∧
    (report "out.txt" "" true false false false false false "example.com"
        ⟨true, "93.184.216.34", "200", "", "", ""⟩ ⟨"", "", ""⟩).output
      = "example.com [Active] [IP: 93.184.216.34]\n" :=
  report_active_lines "out.txt" "" true false false false false false "example.com"
    ⟨true, "93.184.216.34", "200", "", "", ""⟩ ⟨"", "", ""⟩ rfl (by decide)

/-- C9, counterexample: for an active `example.com` with the IP segment enabled the segments
of the line in the output file are not those of the console line. -/
theorem report_segments_differ :
    segments (report "out.txt" "" true false false false false false "example.com"
        ⟨true, "93.184.216.34", "200", "", "", ""⟩ ⟨"", "", ""⟩).console
      = ["[Active]", "[IP:93.184.216.34]"] ∧
    segments (report "out.txt" "" true false false false false false "example.com"
        ⟨true, "93.184.216.34", "200", "", "", ""⟩ ⟨"", "", ""⟩).output
      = ["[Active]", "[IP: 93.184.216.34]"] ∧
    segments (report "out.txt" "" true false false false false false "example.com"
        ⟨true, "93.184.216.34", "200", "", "", ""⟩ ⟨"", "", ""⟩).output
      ≠ segments (report "out.txt" "" true false false false false false "example.com"
        ⟨true, "93.184.216.34", "200", "", "", ""⟩ ⟨"", "", ""⟩).console :=
  ⟨by decide, by decide, by decide⟩

/-- The line that the output file gets for a domain that is not active, in verbose mode: its
status segment is `[Active]`, where the console line has `[Not Active]`. -/
theorem report_inactive_line :
    report "out.txt" "" false true false false false false "example.org"
        ⟨false, "", "404", "", "", ""⟩ ⟨"", "", ""⟩
      = ⟨"example.org [Not Active]\n", "example.org [Active]\n", ""⟩ := by
  decide

/-- C10, as the code has it: a line is written to the IP output file exactly when the domain is
active and an IP output file is configured, whatever `showIP` is; the line is the address and
a line break; nothing is written for a domain that is not active. -/
theorem report_outputIP (outputFile outputIPFile : String)
    (showIP verbose showStatusCode showTitle showLocation showFavicon : Bool)
    (domain : String) (r : Result) (s : Sinks) :
    (report outputFile outputIPFile showIP verbose showStatusCode showTitle showLocation
        showFavicon domain r s).outputIP
      = if r.active = true ∧ outputIPFile ≠ "" then s.outputIP ++ r.ip ++ "\n"
        else s.outputIP := by
  unfold report
  by_cases hactive : r.active = true
  · by_cases hfile : outputIPFile = ""
    · simp [hactive, hfile]
    · simp [hactive, hfile, writeIP, WriteString, String.append_assoc]
  · by_cases hverbose : verbose = true
    · simp [hactive, hverbose]
    · simp [hactive, hverbose]

/-- C10, counterexample: with an IP output file configured and `showIP` off, the address of an
active domain is written to the IP output file. -/
theorem writeIP_ignores_showIP :
    (report "" "ips.txt" false false false false false false "example.com"
        ⟨true, "93.184.216.34", "200", "", "", ""⟩ ⟨"", "", ""⟩).outputIP
      = "93.184.216.34\n" := by
  decide

/-! ## The worker pool -/

/-- The count of the workers in flight when one worker changes place. -/
theorem countP_inFlight_set (ws : List Worker) (i : Nat) (w w' : Worker)
    (h : ws[i]? = some w) :
    (ws.set i w').countP Worker.inFlight + (if w.inFlight = true then 1 else 0)
      = ws.countP Worker.inFlight + (if w'.inFlight = true then 1 else 0) := by
  obtain ⟨hi, hw⟩ := List.getElem?_eq_some.mp h
  have h1 := List.countP_set Worker.inFlight ws i w' hi
  have h2 := List.boole_getElem_le_countP Worker.inFlight ws i hi
  rw [hw] at h1 h2
  omega

/-- A step of a worker keeps the probes in flight equal to the tokens in the semaphore, and
these within the capacity. -/
theorem stepWorker_invariant (rateLimit : Nat) (p q : Pool) (i : Nat)
    (hinv : p.inFlight = p.semaphore ∧ p.semaphore ≤ rateLimit)
    (hstep : p.stepWorker rateLimit i = some q) :
    q.inFlight = q.semaphore ∧ q.semaphore ≤ rateLimit := by
  obtain ⟨hcount, hle⟩ := hinv
  unfold Pool.inFlight at hcount ⊢
  unfold Pool.stepWorker at hstep
  split at hstep
  · simp at hstep
  · rename_i hw
    split at hstep
    · rename_i domain rest hpending
      have h := countP_inFlight_set p.workers i _ (Worker.acquiring domain) hw
      simp only [Option.some.injEq] at hstep
      subst hstep
      simp [Worker.inFlight] at h ⊢
      omega
    · split at hstep
      · have h := countP_inFlight_set p.workers i _ Worker.exited hw
        simp only [Option.some.injEq] at hstep
        subst hstep
        simp [Worker.inFlight] at h ⊢
        omega
      · simp at hstep
  · rename_i domain hw
    split at hstep
    · have h := countP_inFlight_set p.workers i _ (Worker.probing domain) hw
      simp only [Option.some.injEq] at hstep
      subst hstep
      simp [Worker.inFlight] at h ⊢
      omega
    · simp at hstep
  · rename_i domain hw
    have h := countP_inFlight_set p.workers i _ (Worker.reporting domain) hw
    simp only [Option.some.injEq] at hstep
    subst hstep
    simp [Worker.inFlight] at h ⊢
    omega
  · rename_i domain hw
    split at hstep
    · have h := countP_inFlight_set p.workers i _ Worker.receiving hw
      simp only [Option.some.injEq] at hstep
      subst hstep
      simp [Worker.inFlight] at h ⊢
      omega
    · simp at hstep
  · simp at hstep

/-- A step of the pool keeps the invariant. -/
theorem step_invariant (rateLimit : Nat) (p q : Pool) (a : Action)
    (hinv : p.inFlight = p.semaphore ∧ p.semaphore ≤ rateLimit)
    (hstep : p.step rateLimit a = some q) :
    q.inFlight = q.semaphore ∧ q.semaphore ≤ rateLimit := by
  cases a with
  | close =>
    simp only [Pool.step] at hstep
    split at hstep
    · simp only [Option.some.injEq] at hstep
      subst hstep
      exact hinv
    · simp at hstep
  | worker i => exact stepWorker_invariant rateLimit p q i hinv hstep

/-- A run of the pool keeps the invariant. -/
theorem run_invariant (rateLimit : Nat) (schedule : List Action) (p q : Pool)
    (hinv : p.inFlight = p.semaphore ∧ p.semaphore ≤ rateLimit)
    (hrun : p.run rateLimit schedule = some q) :
    q.inFlight = q.semaphore ∧ q.semaphore ≤ rateLimit := by
  induction schedule generalizing p with
  | nil =>
    simp only [Pool.run, Option.some.injEq] at hrun
    subst hrun
    exact hinv
  | cons a rest ih =>
    unfold Pool.run at hrun
    split at hrun
    · simp at hrun
    · rename_i p' hstep
      exact ih p' (step_invariant rateLimit p p' a hinv hstep) hrun

/-- The invariant holds when the workers are launched. -/
theorem start_invariant (numThreads rateLimit : Nat) (candidates : List String) :
    (Pool.start numThreads candidates).inFlight = (Pool.start numThreads candidates).semaphore ∧
    (Pool.start numThreads candidates).semaphore ≤ rateLimit := by
  simp [Pool.start, Pool.inFlight, List.countP_replicate, Worker.inFlight]

/-- C5: in every state that the pool reaches, whatever the number of workers and the
capacity of the semaphore, the probes in flight are as many as the values in the semaphore and
at most `rateLimit`. -/
theorem inFlight_le_rateLimit (numThreads rateLimit : Nat) (candidates : List String)
    (p : Pool)
    (hreach : Pool.Reachable numThreads rateLimit candidates p) :
    p.inFlight = p.semaphore ∧ p.inFlight ≤ rateLimit := by
  obtain ⟨schedule, hrun⟩ := hreach
  have h := run_invariant rateLimit schedule _ p
    (start_invariant numThreads rateLimit candidates) hrun
  exact ⟨h.1, h.1 ▸ h.2⟩

/-- C5, witness: two workers and one slot; after both workers have received a domain and the
first has taken the slot, one probe is in flight and the second worker waits. -/
theorem inFlight_le_rateLimit_witness :
    (Pool.start 2 ["example.com", "example.net", "example.org"]).run 1
        [Action.worker 0, Action.worker 1, Action.worker 0]
      = some ⟨["example.org"], false, 1,
          [Worker.probing "example.com", Worker.acquiring "example.net"]⟩ ∧
    (Pool.start 2 ["example.com", "example.net", "example.org"]).run 1
        [Action.worker 0, Action.worker 1, Action.worker 0, Action.worker 1] = none ∧
    (⟨["example.org"], false, 1,
        [Worker.probing "example.com", Worker.acquiring "example.net"]⟩ : Pool).inFlight ≤ 1 :=
  ⟨by decide, by decide,
    (inFlight_le_rateLimit 2 1 ["example.com", "example.net", "example.org"]
      ⟨["example.org"], false, 1,
        [Worker.probing "example.com", Worker.acquiring "example.net"]⟩
      ⟨[Action.worker 0, Action.worker 1, Action.worker 0], by decide⟩).2⟩

end Tlds
